import Mathlib

/-!
Verification of the goukv key-value abstraction layer against its two backend
adapters (providers/leveldb/provider.go and providers/badgerdb/provider.go)
and errors.go.  Byte strings are modelled as `List Nat`, absolute timestamps
as `Nat`, and each provider's engine state as an association list sorted in
ascending lexicographic key order (the native ordering of both engines).
-/

namespace Goukv

abbrev Bytes := List Nat

/-- Go's `bytes.Compare`: lexicographic three-way comparison of byte slices. -/
def byteCmp : Bytes → Bytes → Ordering
  | [], [] => Ordering.eq
  | [], _ :: _ => Ordering.lt
  | _ :: _, [] => Ordering.gt
  | a :: as, b :: bs =>
    if a < b then Ordering.lt
    else if b < a then Ordering.gt
    else byteCmp as bs

/-- `a` sorts strictly before `b` in byte order. -/
def byteLt (a b : Bytes) : Bool := byteCmp a b == Ordering.lt

/-- The error values of errors.go. -/
inductive KVErr where
  | keyNotFound
  | noScanner
  | scanDone
  | emptyKey
  | ioFailure
  | msg (s : String)
deriving DecidableEq

/-- The decoded stored payload used by the leveldb adapter.

Modelled from the spec: the repository's Value Codec (the goukv `entry.go`
file) is not under src/.  "Stored Payload — {ExpiresAt: absolute timestamp or
absence, RawValue: byte sequence}".  Since the codec is self-delimiting with
`decode(encode(v, e)) == (v, e)`, stored byte strings are represented here
directly by their decoded form. -/
structure Payload where
  expires : Option Nat
  value : Bytes
deriving DecidableEq

/-- Modelled from the spec: "`isExpired` returns false when `expiresAt` is
absent; otherwise true iff `now >= expiresAt`". -/
def isExpired (e : Option Nat) (now : Nat) : Bool :=
  match e with
  | none => false
  | some t => decide (t ≤ now)

/-- The Entry data model: key, optional value (absence marks deletion inside
Batch), and a TTL duration with zero meaning "no expiry". -/
structure Entry where
  key : Bytes
  value : Option Bytes
  ttl : Nat

/-- Modelled from the spec: `EntryToValue` of the missing goukv `entry.go`
builds the stored payload of an entry — `ExpiresAt` absent ⇔ TTL = 0,
otherwise the absolute expiry `now + ttl`; `RawValue` is the entry's value. -/
def entryToValue (now : Nat) (e : Entry) : Payload :=
  { expires := if e.ttl = 0 then none else some (now + e.ttl)
    value := e.value.getD [] }

/-- Engine key space: insert/overwrite keeping ascending key order (both
engines store keys in sorted order). -/
def storePut {α : Type} : List (Bytes × α) → Bytes → α → List (Bytes × α)
  | [], k, v => [(k, v)]
  | (k', v') :: rest, k, v =>
    match byteCmp k k' with
    | Ordering.lt => (k, v) :: (k', v') :: rest
    | Ordering.eq => (k, v) :: rest
    | Ordering.gt => (k', v') :: storePut rest k v

/-- Engine deletion: drop the entry for `k` if present. -/
def storeDel {α : Type} (st : List (Bytes × α)) (k : Bytes) : List (Bytes × α) :=
  st.filter (fun e => !(e.1 == k))

/-- leveldb engine state: keys mapped to opaque payload bytes (represented
decoded, see `Payload`). -/
abbrev Store := List (Bytes × Payload)

/-- `Provider.Get` of the leveldb adapter: engine lookup, `ErrNotFound`
mapped to `ErrKeyNotFound`, then the decoded payload's expiry check; an
expired payload is also reported as `ErrKeyNotFound`. -/
def levelGet (st : Store) (now : Nat) (k : Bytes) : Except KVErr Bytes :=
  match List.lookup k st with
  | none => Except.error KVErr.keyNotFound
  | some payload =>
    if isExpired payload.expires now then Except.error KVErr.keyNotFound
    else Except.ok payload.value

/-- `Provider.TTL` of the leveldb adapter: engine lookup, `ErrNotFound`
mapped to `ErrKeyNotFound`, then the decoded payload's `Expires` field is
returned directly — the source performs no expiry check here. -/
def levelTTL (st : Store) (k : Bytes) : Except KVErr (Option Nat) :=
  match List.lookup k st with
  | none => Except.error KVErr.keyNotFound
  | some payload => Except.ok payload.expires

/-- badgerdb engine item: value plus native `ExpiresAt` (0 meaning none). -/
structure BItem where
  value : Bytes
  expiresAt : Nat
deriving DecidableEq

/-- badgerdb engine state. -/
abbrev BStore := List (Bytes × BItem)

/-- Modelled from the badger v2 engine: an item is deleted-or-expired when
`ExpiresAt` is nonzero and has passed. -/
def bExpired (it : BItem) (now : Nat) : Bool :=
  (!(it.expiresAt == 0)) && decide (it.expiresAt ≤ now)

/-- Modelled from the badger v2 engine: `txn.Get` reports `ErrKeyNotFound`
for absent and for expired keys (native TTL). -/
def badgerTxnGet (st : BStore) (now : Nat) (k : Bytes) : Option BItem :=
  match List.lookup k st with
  | none => none
  | some it => if bExpired it now then none else some it

/-- `Provider.Get` of the badgerdb adapter: engine `ErrKeyNotFound` mapped to
`goukv.ErrKeyNotFound`, otherwise the item's value copy. -/
def badgerGet (st : BStore) (now : Nat) (k : Bytes) : Except KVErr Bytes :=
  match badgerTxnGet st now k with
  | none => Except.error KVErr.keyNotFound
  | some it => Except.ok it.value

/-- `Provider.TTL` of the badgerdb adapter: engine `ErrKeyNotFound` mapped to
`goukv.ErrKeyNotFound`; a positive `ExpiresAt` is returned as an absolute
time, zero as an absent expiry with nil error. -/
def badgerTTL (st : BStore) (now : Nat) (k : Bytes) : Except KVErr (Option Nat) :=
  match badgerTxnGet st now k with
  | none => Except.error KVErr.keyNotFound
  | some it => Except.ok (if it.expiresAt > 0 then some it.expiresAt else none)

/-! ## The Scan protocol, per backend adapter -/

/-- `goukv.ScanOpts`.  The callback (`Scanner`) returns a Go error value,
modelled as `Option KVErr` with `none` for a nil error. -/
structure ScanOpts where
  pfx : Option Bytes
  offset : Option Bytes
  reverseScan : Bool
  includeOffset : Bool
  scanner : Option (Bytes → Bytes → Option KVErr)

/-- One observable step of a scan: a callback invocation, a record skipped by
the offset-boundary rule, or a record skipped because its payload expired. -/
inductive Ev where
  | emit (k v : Bytes)
  | skipOff (k : Bytes)
  | skipExp (k : Bytes)
deriving DecidableEq

/-- Whether an event is a skip caused by the offset-boundary rule. -/
def Ev.isSkipOff : Ev → Bool
  | Ev.skipOff _ => true
  | _ => false

/-- Keys of the records handed to the callback, in order. -/
def emittedKeys (evs : List Ev) : List Bytes :=
  evs.filterMap (fun e => match e with | Ev.emit k _ => some k | _ => none)

/-- Outcome of a whole `Scan` call.  `panicked` records a Go runtime panic
(a nil function value being called). -/
inductive ScanOut where
  | ok
  | err (e : KVErr)
  | panicked
deriving DecidableEq

/-- Outcome of the scan loop proper. -/
inductive ScanRes where
  | success
  | failure (e : KVErr)
deriving DecidableEq

def liftRes : ScanRes → ScanOut
  | ScanRes.success => ScanOut.ok
  | ScanRes.failure e => ScanOut.err e

/-- The offset-boundary test shared by both adapters:
`opts.Offset != nil && !opts.IncludeOffset && key == offset`. -/
def offsetSkip (off? : Option Bytes) (incl : Bool) (k : Bytes) : Bool :=
  match off? with
  | some off => !incl && k == off
  | none => false

/-- The candidate records the leveldb iterator visits, in visit order, or
`none` when the source's `seek` function variable is never assigned (forward
scan with nil `Offset`): calling that nil function panics at run time.

Modelled from the goleveldb iterator: `util.BytesPrefix` restricts the
iterator to keys with the given pfx; `Seek` positions at the first key ≥
target and returns false past the end; `Prev` walks backwards from there;
`Last` positions at the final key. -/
def levelItems (st : Store) (pfx? : Option Bytes) : Store :=
  match pfx? with
  | some p => st.filter (fun e => p.isPrefixOf e.1)
  | none => st

def levelSeekCandidates (st : Store) (pfx? off? : Option Bytes) (rev : Bool) :
    Option (List (Bytes × Payload)) :=
  let items : Store := levelItems st pfx?
  match off? with
  | some off =>
    match items.dropWhile (fun e => byteLt e.1 off) with
    | [] => some []
    | c :: rest =>
      some (if rev then c :: (items.takeWhile (fun e => byteLt e.1 off)).reverse
            else c :: rest)
  | none =>
    if rev then some items.reverse else none

/-- The per-record loop of the leveldb adapter's `Scan`: offset-boundary test
first (no "already checked" marker in this adapter), then the decoded
payload's expiry test, then the callback, with `ErrScanDone` stopping
successfully and any other callback error stopping with that error. -/
def levelScanLoop (off? : Option Bytes) (incl : Bool) (now : Nat)
    (f : Bytes → Bytes → Option KVErr) :
    List (Bytes × Payload) → List Ev × ScanRes
  | [] => ([], ScanRes.success)
  | (k, p) :: rest =>
    if offsetSkip off? incl k then
      let r := levelScanLoop off? incl now f rest
      (Ev.skipOff k :: r.1, r.2)
    else if isExpired p.expires now then
      let r := levelScanLoop off? incl now f rest
      (Ev.skipExp k :: r.1, r.2)
    else
      match f k p.value with
      | none =>
        let r := levelScanLoop off? incl now f rest
        (Ev.emit k p.value :: r.1, r.2)
      | some e =>
        if e = KVErr.scanDone then ([Ev.emit k p.value], ScanRes.success)
        else ([Ev.emit k p.value], ScanRes.failure e)

/-- `Provider.Scan` of the leveldb adapter, returning the event trace and the
call's outcome. -/
def levelScan (st : Store) (now : Nat) (o : ScanOpts) : List Ev × ScanOut :=
  match o.scanner with
  | none => ([], ScanOut.err KVErr.noScanner)
  | some f =>
    match levelSeekCandidates st o.pfx o.offset o.reverseScan with
    | none => ([], ScanOut.panicked)
    | some cands =>
      let r := levelScanLoop o.offset o.includeOffset now f cands
      (r.1, liftRes r.2)

/-- The candidate records the badger iterator visits, in visit order.

Modelled from the badger v2 engine: expired items are never surfaced by an
iterator (native TTL); an `IteratorOptions.Prefix` of positive length
restricts iteration to that pfx; in forward mode `Seek` positions at the
first key ≥ target, in reverse mode at the last key ≤ target; `Rewind` goes
to the first key in iteration order. -/
def badgerCandidates (st : BStore) (now : Nat) (o : ScanOpts) :
    List (Bytes × Bytes) :=
  let live : BStore := st.filter (fun e => !(bExpired e.2 now))
  let items : BStore := match o.pfx with
    | some p => if p.length > 0 then live.filter (fun e => p.isPrefixOf e.1) else live
    | none => live
  let pairs : List (Bytes × Bytes) := items.map (fun e => (e.1, e.2.value))
  match o.offset with
  | some off =>
    if o.reverseScan then (pairs.takeWhile (fun e => !(byteLt off e.1))).reverse
    else pairs.dropWhile (fun e => byteLt e.1 off)
  | none => if o.reverseScan then pairs.reverse else pairs

/-- The per-record loop of the badgerdb adapter's `Scan`: the offset-boundary
test is guarded by the `checked` marker, which becomes true after the first
record regardless of the test's outcome. -/
def badgerScanLoop (off? : Option Bytes) (incl : Bool)
    (f : Bytes → Bytes → Option KVErr) :
    Bool → List (Bytes × Bytes) → List Ev × ScanRes
  | _, [] => ([], ScanRes.success)
  | checked, (k, v) :: rest =>
    if !checked && offsetSkip off? incl k then
      let r := badgerScanLoop off? incl f true rest
      (Ev.skipOff k :: r.1, r.2)
    else
      match f k v with
      | none =>
        let r := badgerScanLoop off? incl f true rest
        (Ev.emit k v :: r.1, r.2)
      | some e =>
        if e = KVErr.scanDone then ([Ev.emit k v], ScanRes.success)
        else ([Ev.emit k v], ScanRes.failure e)

/-- `Provider.Scan` of the badgerdb adapter. -/
def badgerScan (st : BStore) (now : Nat) (o : ScanOpts) : List Ev × ScanOut :=
  match o.scanner with
  | none => ([], ScanOut.err KVErr.noScanner)
  | some f =>
    let r := badgerScanLoop o.offset o.includeOffset f false (badgerCandidates st now o)
    (r.1, liftRes r.2)

/-! ## Batch, per backend adapter -/

/-- A buffered leveldb batch operation. -/
inductive BOpL where
  | put (k : Bytes) (p : Payload)
  | del (k : Bytes)

/-- The leveldb adapter's translation of one batch entry: a nil `Value`
becomes `batch.Delete`, otherwise `batch.Put` of the encoded payload. -/
def levelBOpOf (now : Nat) (e : Entry) : BOpL :=
  match e.value with
  | none => BOpL.del e.key
  | some _ => BOpL.put e.key (entryToValue now e)

def applyBOpL (st : Store) (op : BOpL) : Store :=
  match op with
  | BOpL.put k p => storePut st k p
  | BOpL.del k => storeDel st k

/-- `Provider.Batch` of the leveldb adapter: all entries are buffered into
one `leveldb.Batch` and committed with a single `db.Write`, which the engine
applies atomically — on an engine write failure (`engineFail`) the error is
returned and the store is untouched. -/
def levelBatch (now : Nat) (entries : List Entry) (st : Store)
    (engineFail : Bool) : Store × Option KVErr :=
  let ops := entries.map (levelBOpOf now)
  if engineFail then (st, some KVErr.ioFailure)
  else (ops.foldl applyBOpL st, none)

/-- A buffered badger write-batch operation (`ExpiresAt` 0 meaning none). -/
inductive BOpB where
  | set (k v : Bytes) (expiresAt : Nat)
  | del (k : Bytes)

/-- Modelled from the badger v2 engine: `WriteBatch.Delete` validates the
entry, rejecting an empty key with `ErrEmptyKey`. -/
def wbDelete (k : Bytes) : Except KVErr BOpB :=
  if k = [] then Except.error KVErr.emptyKey else Except.ok (BOpB.del k)

/-- Modelled from the badger v2 engine: `WriteBatch.Set`, same validation. -/
def wbSet (k v : Bytes) : Except KVErr BOpB :=
  if k = [] then Except.error KVErr.emptyKey else Except.ok (BOpB.set k v 0)

/-- Modelled from the badger v2 engine: `WriteBatch.SetEntry` with a TTL. -/
def wbSetEntry (k v : Bytes) (expAt : Nat) : Except KVErr BOpB :=
  if k = [] then Except.error KVErr.emptyKey else Except.ok (BOpB.set k v expAt)

/-- The badgerdb adapter's batch loop: nil `Value` → `Delete`; positive TTL →
`SetEntry` with expiry; otherwise `Set`.  The first failing buffer operation
cancels the batch and is returned. -/
def badgerBuildOps (now : Nat) : List Entry → Except KVErr (List BOpB)
  | [] => Except.ok []
  | e :: rest =>
    let op? : Except KVErr BOpB := match e.value with
      | none => wbDelete e.key
      | some v => if e.ttl > 0 then wbSetEntry e.key v (now + e.ttl) else wbSet e.key v
    match op? with
    | Except.error err => Except.error err
    | Except.ok op =>
      match badgerBuildOps now rest with
      | Except.error err => Except.error err
      | Except.ok ops => Except.ok (op :: ops)

def applyBOpB (st : BStore) (op : BOpB) : BStore :=
  match op with
  | BOpB.set k v x => storePut st k { value := v, expiresAt := x }
  | BOpB.del k => storeDel st k

/-- `Provider.Batch` of the badgerdb adapter: buffer every entry, cancel on
the first error (nothing applied), otherwise `Flush` commits the buffered
operations as one unit. -/
def badgerBatch (now : Nat) (entries : List Entry) (st : BStore) :
    BStore × Option KVErr :=
  match badgerBuildOps now entries with
  | Except.error e => (st, some e)
  | Except.ok ops => (ops.foldl applyBOpB st, none)

/-- Follows the spec's words, for comparison with the adapters' code: an
entry with a present `Value` is an upsert of its stored payload, an entry
with an absent `Value` is a deletion. -/
def specApplyEntry (now : Nat) (st : Store) (e : Entry) : Store :=
  match e.value with
  | some _ => storePut st e.key (entryToValue now e)
  | none => storeDel st e.key

/-- Follows the spec's words: the whole batch applied in order. -/
def specApplyEntries (now : Nat) (entries : List Entry) (st : Store) : Store :=
  entries.foldl (specApplyEntry now) st

/-- Follows the spec's words, on the badger data model. -/
def specBadgerApplyEntry (now : Nat) (st : BStore) (e : Entry) : BStore :=
  match e.value with
  | some v => storePut st e.key { value := v, expiresAt := if e.ttl > 0 then now + e.ttl else 0 }
  | none => storeDel st e.key

/-- Follows the spec's words: the whole batch applied in order. -/
def specBadgerApplyEntries (now : Nat) (entries : List Entry) (st : BStore) : BStore :=
  entries.foldl (specBadgerApplyEntry now) st

/-! ## Open, per backend adapter -/

/-- A configuration value of the `map[string]interface{}` options map.
Storage locations are modelled as component lists. -/
inductive OptV where
  | str (path : List String)
  | boolean (b : Bool)
  | num (n : Nat)
deriving DecidableEq

abbrev OptMap := List (String × OptV)

/-- The Go type assertion `opts["path"].(string)`. -/
def optStr (m : OptMap) (k : String) : Option (List String) :=
  match List.lookup k m with
  | some (OptV.str s) => some s
  | _ => none

/-- The Go type assertion `opts["sync_writes"].(bool)`. -/
def optBool (m : OptMap) (k : String) : Option Bool :=
  match List.lookup k m with
  | some (OptV.boolean b) => some b
  | _ => none

/-- Whether an option value is a boolean. -/
def isBoolOpt : OptV → Bool
  | OptV.boolean _ => true
  | _ => false

/-- A file system: the set of existing directories with the permission bits
each was created with. -/
abbrev FS := List (List String × Nat)

/-- `os.ModePerm` = 0777. -/
def modePerm : Nat := 511

def dirExists (fs : FS) (d : List String) : Bool :=
  fs.any (fun e => e.1 == d)

/-- Every ancestor of a directory path, shortest first, the path itself last. -/
def dirAncestors (d : List String) : List (List String) :=
  (List.range d.length).map (fun i => d.take (i + 1))

/-- `os.MkdirAll`: create the directory and every missing ancestor with the
given permission bits. -/
def mkdirAll (fs : FS) (d : List String) (perm : Nat) : FS :=
  fs ++ ((dirAncestors d).filter (fun a => !dirExists fs a)).map (fun a => (a, perm))

/-- Both adapters' directory preparation: `dir := filepath.Dir(path)`; if a
stat reports it missing, `os.MkdirAll(dir, os.ModePerm)`. -/
def prepareDir (fs : FS) (path : List String) : FS :=
  let dir := path.dropLast
  if !dirExists fs dir then mkdirAll fs dir modePerm else fs

/-- The goleveldb `opt.Options` fields the adapter sets. -/
structure LevelOptions where
  bloomFilterBits : Nat
  errorIfMissing : Bool
  compression : Nat
  noSync : Bool
deriving DecidableEq

/-- An opened leveldb provider: the engine options it was opened with, the
file system after opening, and the adapter's remembered `syncWrites` flag
(passed as `WriteOptions.Sync` on every write). -/
structure LevelProvider where
  engineOpts : LevelOptions
  fs : FS
  syncWrites : Bool
deriving DecidableEq

/-- `Provider.Open` of the leveldb adapter.  Note the source sets the engine
option `NoSync` to the requested `sync_writes` value. -/
def levelOpen (opts : OptMap) (fs : FS) : Except KVErr LevelProvider :=
  match optStr opts "path" with
  | none => Except.error (KVErr.msg "must specify path")
  | some path =>
    let fs2 := prepareDir fs path
    let syncWrites := (optBool opts "sync_writes").getD false
    let o : LevelOptions :=
      { bloomFilterBits := 10, errorIfMissing := false, compression := 9,
        noSync := syncWrites }
    Except.ok { engineOpts := o, fs := fs2, syncWrites := syncWrites }

/-- Modelled from the goleveldb engine's write path: a write is durably
synced iff the per-write `WriteOptions.Sync` flag is set and the session's
`Options.NoSync` flag is not. -/
def levelWriteDurable (p : LevelProvider) : Bool :=
  p.syncWrites && !p.engineOpts.noSync

/-- The badger v2 `Options` fields the adapter touches. -/
structure BadgerOptions where
  dir : List String
  syncWrites : Bool
  compression : Nat
  keepL0InMemory : Bool
  hasLogger : Bool
deriving DecidableEq

/-- Modelled from the badger v2 engine: `badger.DefaultOptions(path)` has
`SyncWrites = true`, no compression, `KeepL0InMemory = false`, and a default
logger. -/
def badgerDefaultOptions (path : List String) : BadgerOptions :=
  { dir := path, syncWrites := true, compression := 0,
    keepL0InMemory := false, hasLogger := true }

/-- Modelled from the badger v2 API: `Options.WithSyncWrites` has a value
receiver and returns the updated copy. -/
def withSyncWrites (o : BadgerOptions) (b : Bool) : BadgerOptions :=
  { o with syncWrites := b }

/-- Modelled from the badger v2 API, value receiver as above. -/
def withLoggerNone (o : BadgerOptions) : BadgerOptions :=
  { o with hasLogger := false }

/-- Modelled from the badger v2 API, value receiver as above. -/
def withKeepL0InMemory (o : BadgerOptions) (b : Bool) : BadgerOptions :=
  { o with keepL0InMemory := b }

/-- Modelled from the badger v2 API, value receiver as above (1 = Snappy). -/
def withCompression (o : BadgerOptions) (c : Nat) : BadgerOptions :=
  { o with compression := c }

/-- An opened badgerdb provider. -/
structure BadgerProvider where
  engineOpts : BadgerOptions
  fs : FS
deriving DecidableEq

/-- `Provider.Open` of the badgerdb adapter.  The source calls the `With*`
option setters as statements and discards the `Options` values they return,
so the engine is opened with `badger.DefaultOptions(path)` unchanged. -/
def badgerOpen (opts : OptMap) (fs : FS) : Except KVErr BadgerProvider :=
  match optStr opts "path" with
  | none => Except.error (KVErr.msg "must specify path")
  | some path =>
    let fs2 := prepareDir fs path
    let syncWrites := (optBool opts "sync_writes").getD false
    let badgerOpts := badgerDefaultOptions path
    let _ := withSyncWrites badgerOpts syncWrites
    let _ := withLoggerNone badgerOpts
    let _ := withKeepL0InMemory badgerOpts true
    let _ := withCompression badgerOpts 1
    Except.ok { engineOpts := badgerOpts, fs := fs2 }

/-- `Except` success as a boolean. -/
def isOkE {α : Type} : Except KVErr α → Bool
  | Except.ok _ => true
  | Except.error _ => false

/-! ## Supporting lemmas -/

lemma byteCmp_self : ∀ (a : Bytes), byteCmp a a = Ordering.eq := by
  intro a
  induction a with
  | nil => rfl
  | cons x xs ih => simp [byteCmp, ih]

lemma byteLt_irrefl (a : Bytes) : byteLt a a = false := by
  simp [byteLt, byteCmp_self]
  decide

lemma storeGet_put {α : Type} (k : Bytes) (v : α) :
    ∀ (st : List (Bytes × α)), List.lookup k (storePut st k v) = some v := by
  intro st
  induction st with
  | nil => simp [storePut, List.lookup]
  | cons e rest ih =>
    obtain ⟨k', v'⟩ := e
    cases h : byteCmp k k' with
    | lt => simp [storePut, h, List.lookup]
    | eq => simp [storePut, h, List.lookup]
    | gt =>
      have hne : (k == k') = false := by
        rw [beq_eq_false_iff_ne]
        intro hkk
        rw [hkk, byteCmp_self] at h
        exact absurd h (by decide)
      simp [storePut, h, List.lookup, hne, ih]

lemma foldl_levelBOp (now : Nat) : ∀ (entries : List Entry) (st : Store),
    (entries.map (levelBOpOf now)).foldl applyBOpL st = specApplyEntries now entries st := by
  intro entries
  induction entries with
  | nil => intro st; rfl
  | cons e rest ih =>
    intro st
    have hstep : applyBOpL st (levelBOpOf now e) = specApplyEntry now st e := by
      cases h : e.value <;> simp [applyBOpL, levelBOpOf, specApplyEntry, h]
    simp only [List.map_cons, List.foldl_cons, specApplyEntries, hstep]
    exact ih _

lemma badgerBuildOps_fold (now : Nat) : ∀ (entries : List Entry) (ops : List BOpB),
    badgerBuildOps now entries = Except.ok ops →
    ∀ st, ops.foldl applyBOpB st = specBadgerApplyEntries now entries st := by
  intro entries
  induction entries with
  | nil =>
    intro ops h st
    simp only [badgerBuildOps] at h
    cases h
    rfl
  | cons e rest ih =>
    intro ops h st
    simp only [badgerBuildOps] at h
    cases hv : e.value with
    | none =>
      rw [hv] at h
      unfold wbDelete at h
      by_cases hk : e.key = []
      · simp [hk] at h
      · simp only [if_neg hk] at h
        cases hrest : badgerBuildOps now rest with
        | error err => rw [hrest] at h; cases h
        | ok ops2 =>
          rw [hrest] at h
          cases h
          simp only [List.foldl_cons, applyBOpB, specBadgerApplyEntries, List.foldl_cons,
            specBadgerApplyEntry, hv]
          exact ih ops2 hrest _
    | some v =>
      rw [hv] at h
      by_cases ht : e.ttl > 0
      · simp only [if_pos ht] at h
        unfold wbSetEntry at h
        by_cases hk : e.key = []
        · simp [hk] at h
        · simp only [if_neg hk] at h
          cases hrest : badgerBuildOps now rest with
          | error err => rw [hrest] at h; cases h
          | ok ops2 =>
            rw [hrest] at h
            cases h
            simp only [List.foldl_cons, applyBOpB, specBadgerApplyEntries, List.foldl_cons,
              specBadgerApplyEntry, hv, if_pos ht]
            exact ih ops2 hrest _
      · simp only [if_neg ht] at h
        unfold wbSet at h
        by_cases hk : e.key = []
        · simp [hk] at h
        · simp only [if_neg hk] at h
          cases hrest : badgerBuildOps now rest with
          | error err => rw [hrest] at h; cases h
          | ok ops2 =>
            rw [hrest] at h
            cases h
            simp only [List.foldl_cons, applyBOpB, specBadgerApplyEntries, List.foldl_cons,
              specBadgerApplyEntry, hv, if_neg ht]
            exact ih ops2 hrest _

lemma self_mem_dirAncestors (d : List String) (hd : d ≠ []) : d ∈ dirAncestors d := by
  have hlen : 0 < d.length := List.length_pos.mpr hd
  unfold dirAncestors
  refine List.mem_map.mpr ⟨d.length - 1, List.mem_range.mpr (by omega), ?_⟩
  rw [Nat.sub_add_cancel hlen, List.take_length]

lemma mem_mkdirAll_self (fs : FS) (d : List String) (perm : Nat)
    (hd : d ≠ []) (h : dirExists fs d = false) : (d, perm) ∈ mkdirAll fs d perm := by
  unfold mkdirAll
  refine List.mem_append_right _ ?_
  refine List.mem_map.mpr ⟨d, ?_, rfl⟩
  exact List.mem_filter.mpr ⟨self_mem_dirAncestors d hd, by simp [h]⟩

lemma dirExists_mkdirAll (fs : FS) (d : List String) (perm : Nat) :
    ∀ a ∈ dirAncestors d, dirExists (mkdirAll fs d perm) a = true := by
  intro a ha
  by_cases hfa : dirExists fs a = true
  · unfold mkdirAll dirExists
    rw [List.any_append]
    unfold dirExists at hfa
    simp [hfa]
  · simp only [Bool.not_eq_true] at hfa
    have hmem : (a, perm) ∈ mkdirAll fs d perm := by
      unfold mkdirAll
      exact List.mem_append_right _
        (List.mem_map.mpr ⟨a, List.mem_filter.mpr ⟨ha, by simp [hfa]⟩, rfl⟩)
    unfold dirExists
    rw [List.any_eq_true]
    exact ⟨(a, perm), hmem, by simp⟩

lemma dropWhile_head_false {α : Type} (p : α → Bool) :
    ∀ (l : List α) (a : α) (rest : List α), l.dropWhile p = a :: rest → p a = false := by
  intro l
  induction l with
  | nil =>
    intro a rest h
    simp [List.dropWhile] at h
  | cons x xs ih =>
    intro a rest h
    rw [List.dropWhile_cons] at h
    by_cases hp : p x = true
    · rw [if_pos hp] at h
      exact ih a rest h
    · rw [if_neg hp] at h
      injection h with h1 _
      subst h1
      simpa using hp

lemma dropWhile_tail_ne (items : Store) (off : Bytes)
    (hs : List.Pairwise (fun a b => byteLt a.1 b.1 = true) items) :
    ∀ (c : Bytes × Payload) (rest : List (Bytes × Payload)),
      items.dropWhile (fun e => byteLt e.1 off) = c :: rest →
      ∀ c2 ∈ rest, c2.1 ≠ off := by
  intro c rest h c2 hc2 heq
  have hsub : List.Pairwise (fun a b => byteLt a.1 b.1 = true)
      (items.dropWhile (fun e => byteLt e.1 off)) :=
    List.Pairwise.sublist (List.dropWhile_sublist _) hs
  rw [h, List.pairwise_cons] at hsub
  have hlt : byteLt c.1 c2.1 = true := hsub.1 c2 hc2
  have hhead : byteLt c.1 off = false := by
    simpa using dropWhile_head_false (fun e => byteLt e.1 off) items c rest h
  rw [heq] at hlt
  rw [hlt] at hhead
  cases hhead

lemma takeWhile_rev_mem_ne (items : Store) (off : Bytes) :
    ∀ c2 ∈ (items.takeWhile (fun e => byteLt e.1 off)).reverse, c2.1 ≠ off := by
  intro c2 hc2 heq
  rw [List.mem_reverse] at hc2
  have hlt := List.mem_takeWhile_imp hc2
  simp only [heq, byteLt_irrefl] at hlt
  cases hlt

lemma level_cands_tail_ne (st : Store) (pfx? : Option Bytes) (off : Bytes) (rev : Bool)
    (hs : List.Pairwise (fun a b => byteLt a.1 b.1 = true) st) :
    ∀ (c : Bytes × Payload) (rest : List (Bytes × Payload)),
      levelSeekCandidates st pfx? (some off) rev = some (c :: rest) →
      ∀ c2 ∈ rest, c2.1 ≠ off := by
  intro c rest h c2 hc2
  simp only [levelSeekCandidates] at h
  have hitems : List.Pairwise (fun a b => byteLt a.1 b.1 = true) (levelItems st pfx?) := by
    cases pfx? with
    | some p => exact List.Pairwise.sublist (List.filter_sublist st) hs
    | none => exact hs
  set items : Store := levelItems st pfx? with hit
  cases hdw : items.dropWhile (fun e => byteLt e.1 off) with
  | nil =>
    rw [hdw] at h
    simp at h
  | cons c0 rest0 =>
    rw [hdw] at h
    simp only [Option.some_inj] at h
    cases rev with
    | false =>
      simp only [Bool.false_eq_true, if_false] at h
      injection h with h1 h2
      subst h1
      subst h2
      exact dropWhile_tail_ne items off hitems c0 rest0 hdw c2 hc2
    | true =>
      simp only [if_true] at h
      have : rest = (items.takeWhile (fun e => byteLt e.1 off)).reverse := by
        have := congrArg List.tail h
        simpa using this.symm
      rw [this] at hc2
      exact takeWhile_rev_mem_ne items off c2 hc2

lemma levelLoop_no_skipOff (off : Bytes) (incl : Bool) (now : Nat)
    (f : Bytes → Bytes → Option KVErr) :
    ∀ (cands : List (Bytes × Payload)), (∀ c ∈ cands, c.1 ≠ off) →
    ((levelScanLoop (some off) incl now f cands).1.all (fun e => !e.isSkipOff)) = true := by
  intro cands
  induction cands with
  | nil =>
    intro _
    simp [levelScanLoop]
  | cons c rest ih =>
    obtain ⟨ck, cp⟩ := c
    intro hne
    have hck : ck ≠ off := hne (ck, cp) (List.mem_cons_self _ _)
    have htail : ∀ c2 ∈ rest, c2.1 ≠ off := fun c2 hc2 => hne c2 (List.mem_cons_of_mem _ hc2)
    have hoff : offsetSkip (some off) incl ck = false := by
      simp [offsetSkip, hck]
    simp only [levelScanLoop, hoff, Bool.false_eq_true, if_false]
    by_cases hexp : isExpired cp.expires now = true
    · rw [if_pos hexp]
      simp only [List.all_cons, Ev.isSkipOff, Bool.not_false, Bool.true_and]
      exact ih htail
    · rw [if_neg hexp]
      cases hf : f ck cp.value with
      | none =>
        simp only [List.all_cons, Ev.isSkipOff, Bool.not_false, Bool.true_and]
        exact ih htail
      | some e =>
        by_cases hd : e = KVErr.scanDone
        · simp [if_pos hd, Ev.isSkipOff]
        · simp [if_neg hd, Ev.isSkipOff]

lemma levelLoop_trace_cons (off? : Option Bytes) (incl : Bool) (now : Nat)
    (f : Bytes → Bytes → Option KVErr) (c : Bytes × Payload)
    (rest : List (Bytes × Payload)) :
    ∃ ev t, (levelScanLoop off? incl now f (c :: rest)).1 = ev :: t
      ∧ (t = (levelScanLoop off? incl now f rest).1 ∨ t = []) := by
  obtain ⟨ck, cp⟩ := c
  simp only [levelScanLoop]
  by_cases hoff : offsetSkip off? incl ck = true
  · rw [if_pos hoff]
    exact ⟨_, _, rfl, Or.inl rfl⟩
  · rw [if_neg hoff]
    by_cases hexp : isExpired cp.expires now = true
    · rw [if_pos hexp]
      exact ⟨_, _, rfl, Or.inl rfl⟩
    · rw [if_neg hexp]
      cases hf : f ck cp.value with
      | none => exact ⟨_, _, rfl, Or.inl rfl⟩
      | some e =>
        by_cases hd : e = KVErr.scanDone
        · simp only [if_pos hd]
          exact ⟨_, _, rfl, Or.inr rfl⟩
        · simp only [if_neg hd]
          exact ⟨_, _, rfl, Or.inr rfl⟩

lemma badgerLoop_checked_no_skipOff (off? : Option Bytes) (incl : Bool)
    (f : Bytes → Bytes → Option KVErr) :
    ∀ (cands : List (Bytes × Bytes)),
    ((badgerScanLoop off? incl f true cands).1.all (fun e => !e.isSkipOff)) = true := by
  intro cands
  induction cands with
  | nil => simp [badgerScanLoop]
  | cons c rest ih =>
    obtain ⟨ck, cv⟩ := c
    simp only [badgerScanLoop, Bool.not_true, Bool.false_and, Bool.false_eq_true, if_false]
    cases hf : f ck cv with
    | none =>
      simp only [List.all_cons, Ev.isSkipOff, Bool.not_false, Bool.true_and]
      exact ih
    | some e =>
      by_cases hd : e = KVErr.scanDone
      · simp [if_pos hd, Ev.isSkipOff]
      · simp [if_neg hd, Ev.isSkipOff]

lemma badgerLoop_trace_cons (off? : Option Bytes) (incl : Bool)
    (f : Bytes → Bytes → Option KVErr) (c : Bytes × Bytes)
    (rest : List (Bytes × Bytes)) :
    ∃ ev t, (badgerScanLoop off? incl f false (c :: rest)).1 = ev :: t
      ∧ (t = (badgerScanLoop off? incl f true rest).1 ∨ t = []) := by
  obtain ⟨ck, cv⟩ := c
  simp only [badgerScanLoop, Bool.not_false, Bool.true_and]
  by_cases hoff : offsetSkip off? incl ck = true
  · rw [if_pos hoff]
    exact ⟨_, _, rfl, Or.inl rfl⟩
  · rw [if_neg hoff]
    cases hf : f ck cv with
    | none => exact ⟨_, _, rfl, Or.inl rfl⟩
    | some e =>
      by_cases hd : e = KVErr.scanDone
      · simp only [if_pos hd]
        exact ⟨_, _, rfl, Or.inr rfl⟩
      · simp only [if_neg hd]
        exact ⟨_, _, rfl, Or.inr rfl⟩

/-! ## Claim theorems -/

/-- C1.  The claim fails on the code: the leveldb adapter's `Scan` assigns
its `seek` function only when `Offset` is set or `ReverseScan` is true, so a
forward scan with no offset over the keys a, b, c calls a nil function and
panics — it visits no record and does not return normally, where the claim
dictates the candidate sequence a, b, c and a normal return. -/
theorem claim1_forward_scan_panics :
    levelScan [([97], ⟨none, [10]⟩), ([98], ⟨none, [11]⟩), ([99], ⟨none, [12]⟩)] 0
      { pfx := none, offset := none, reverseScan := false, includeOffset := false,
        scanner := some (fun _ _ => none) } = ([], ScanOut.panicked) := rfl

/-- C2.  The claim fails on the code: after a badgerdb `Open` with no
`sync_writes` option (and likewise with `sync_writes` false) the engine is
left at badger's default `SyncWrites = true`, because the source discards
the `Options` value returned by `WithSyncWrites`; and after a leveldb `Open`
with `sync_writes` true, writes are not durably synced, because the source
sets the engine option `NoSync` to the requested value, which defeats the
per-write `Sync` flag. -/
theorem claim2_sync_misconfigured :
    (badgerOpen [("path", OptV.str ["data"])] []).toOption.map
        (fun r => r.engineOpts.syncWrites) = some true
    ∧ (badgerOpen [("path", OptV.str ["data"]), ("sync_writes", OptV.boolean false)]
        []).toOption.map (fun r => r.engineOpts.syncWrites) = some true
    ∧ (levelOpen [("path", OptV.str ["data"]), ("sync_writes", OptV.boolean true)]
        []).toOption.map levelWriteDurable = some false :=
  ⟨rfl, rfl, rfl⟩

/-- C3, counterexample.  On the store holding one key whose stored expiry 5
has passed at time 10, the leveldb `Get` fails with the key-not-found error
but the leveldb `TTL` returns the stored expiry with a nil error — so `TTL`
does not fail exactly when `Get` would. -/
theorem claim3_cex :
    levelGet [([8], ⟨some 5, [1]⟩)] 10 [8] = Except.error KVErr.keyNotFound
    ∧ levelTTL [([8], ⟨some 5, [1]⟩)] [8] = Except.ok (some 5) :=
  ⟨rfl, rfl⟩

/-- C3, as amended.  The leveldb `TTL` fails with the key-not-found error
exactly when the key is absent — a present but expired key yields its stored
expiry with a nil error; the badgerdb `TTL` fails with key-not-found exactly
when `Get` would; and, in both adapters, a present unexpired key with no
expiry yields an absent expiry with a nil error. -/
theorem claim3_ttl_amended :
    (∀ (st : Store) (k : Bytes),
      levelTTL st k = Except.error KVErr.keyNotFound ↔ List.lookup k st = none)
    ∧ (∀ (st : Store) (k : Bytes) (p : Payload),
      List.lookup k st = some p → levelTTL st k = Except.ok p.expires)
    ∧ (∀ (st : BStore) (now : Nat) (k : Bytes),
      badgerTTL st now k = Except.error KVErr.keyNotFound ↔
        badgerGet st now k = Except.error KVErr.keyNotFound)
    ∧ (∀ (st : BStore) (now : Nat) (k : Bytes) (it : BItem),
      List.lookup k st = some it → it.expiresAt = 0 →
        badgerTTL st now k = Except.ok none) := by
  refine ⟨?_, ?_, ?_, ?_⟩
  · intro st k
    unfold levelTTL
    cases h : List.lookup k st <;> simp
  · intro st k p h
    simp [levelTTL, h]
  · intro st now k
    unfold badgerTTL badgerGet
    cases h : badgerTxnGet st now k <;> simp
  · intro st now k it h h0
    simp [badgerTTL, badgerTxnGet, h, bExpired, h0]

/-- C3, witness for the amended theorem at concrete inputs. -/
theorem claim3_ttl_amended_witness :
    levelTTL [([8], ⟨some 5, [1]⟩)] [8] = Except.ok (some 5)
    ∧ badgerTTL [([9], ⟨[2], 0⟩)] 4 [9] = Except.ok none :=
  ⟨claim3_ttl_amended.2.1 [([8], ⟨some 5, [1]⟩)] [8] ⟨some 5, [1]⟩ rfl,
   claim3_ttl_amended.2.2.2 [([9], ⟨[2], 0⟩)] 4 [9] ⟨[2], 0⟩ rfl rfl⟩

/-- C7.  The claim fails on the code: a leveldb forward `Scan` with no
`Offset` and an immediately exhausted iterator (empty store) panics calling
the never-assigned `seek` function instead of returning success; the
scan-done sentinel is never consulted because no record is ever visited. -/
theorem claim7_exhausted_scan_panics :
    levelScan [] 0
      { pfx := none, offset := none, reverseScan := false, includeOffset := false,
        scanner := some (fun _ _ => some KVErr.scanDone) } = ([], ScanOut.panicked) := rfl

/-- C4.  In both adapters, `Batch` is atomic: when it reports no error the
resulting store equals the whole entry list applied in order — present
values as upserts, absent values as deletions — and when it reports any
error (an engine write failure for leveldb, a rejected buffer operation for
badgerdb) the resulting store is exactly the store from before the call, so
no partial application is observable by later `Get`/`Scan`. -/
theorem claim4_batch_atomic :
    (∀ (now : Nat) (entries : List Entry) (st : Store) (engineFail : Bool),
      ((levelBatch now entries st engineFail).2 = none →
        (levelBatch now entries st engineFail).1 = specApplyEntries now entries st)
      ∧ ∀ e, (levelBatch now entries st engineFail).2 = some e →
        (levelBatch now entries st engineFail).1 = st)
    ∧ (∀ (now : Nat) (entries : List Entry) (st : BStore),
      ((badgerBatch now entries st).2 = none →
        (badgerBatch now entries st).1 = specBadgerApplyEntries now entries st)
      ∧ ∀ e, (badgerBatch now entries st).2 = some e →
        (badgerBatch now entries st).1 = st) := by
  constructor
  · intro now entries st engineFail
    cases engineFail with
    | true =>
      constructor
      · intro h; simp [levelBatch] at h
      · intro e _; rfl
    | false =>
      constructor
      · intro _
        simpa [levelBatch] using foldl_levelBOp now entries st
      · intro e h; simp [levelBatch] at h
  · intro now entries st
    cases h : badgerBuildOps now entries with
    | error err =>
      constructor
      · intro h2; simp [badgerBatch, h] at h2
      · intro e _; simp [badgerBatch, h]
    | ok ops =>
      constructor
      · intro _
        simpa [badgerBatch, h] using badgerBuildOps_fold now entries ops h st
      · intro e h2; simp [badgerBatch, h] at h2

/-- C4, witness: a failing leveldb engine write and a badgerdb batch whose
second entry is rejected (empty key) leave their stores untouched, and a
successful leveldb batch applies its entries. -/
theorem claim4_batch_atomic_witness :
    (levelBatch 0 [{ key := [1], value := some [2], ttl := 0 }] [] true).1 = []
    ∧ (badgerBatch 0 [{ key := [1], value := some [2], ttl := 0 },
        { key := [], value := some [3], ttl := 0 }] [([5], ⟨[6], 0⟩)]).1 = [([5], ⟨[6], 0⟩)]
    ∧ (levelBatch 0 [{ key := [1], value := some [2], ttl := 0 }] [] false).1
      = specApplyEntries 0 [{ key := [1], value := some [2], ttl := 0 }] [] :=
  ⟨(claim4_batch_atomic.1 0 [{ key := [1], value := some [2], ttl := 0 }] [] true).2
      KVErr.ioFailure rfl,
   (claim4_batch_atomic.2 0 [{ key := [1], value := some [2], ttl := 0 },
      { key := [], value := some [3], ttl := 0 }] [([5], ⟨[6], 0⟩)]).2 KVErr.emptyKey rfl,
   (claim4_batch_atomic.1 0 [{ key := [1], value := some [2], ttl := 0 }] [] false).1 rfl⟩

/-- C8.  In both adapters, only a nil `Value` marks a deletion inside
`Batch`: an entry whose value is present but zero-length is applied as an
upsert storing the empty value, and a subsequent `Get` of the key returns
the empty byte string rather than key-not-found. -/
theorem claim8_empty_value_upsert :
    ∀ (now : Nat) (st : Store) (bst : BStore) (k : Bytes),
      (levelBatch now [{ key := k, value := some [], ttl := 0 }] st false
        = (storePut st k { expires := none, value := [] }, none))
      ∧ (levelGet (storePut st k { expires := none, value := [] }) now k = Except.ok [])
      ∧ (k ≠ [] → badgerBatch now [{ key := k, value := some [], ttl := 0 }] bst
        = (storePut bst k { value := [], expiresAt := 0 }, none))
      ∧ (k ≠ [] → badgerGet (storePut bst k { value := [], expiresAt := 0 }) now k
        = Except.ok []) := by
  intro now st bst k
  refine ⟨rfl, ?_, ?_, ?_⟩
  · simp [levelGet, storeGet_put, isExpired]
  · intro hk
    simp [badgerBatch, badgerBuildOps, wbSet, hk, applyBOpB]
  · intro _
    simp [badgerGet, badgerTxnGet, storeGet_put, bExpired]

/-- C8, witness at a concrete key and empty stores. -/
theorem claim8_empty_value_upsert_witness :
    levelGet (storePut [] [7] { expires := none, value := [] }) 3 [7] = Except.ok []
    ∧ badgerGet (storePut [] [7] { value := [], expiresAt := 0 }) 3 [7] = Except.ok [] :=
  ⟨(claim8_empty_value_upsert 3 [] [] [7]).2.1,
   (claim8_empty_value_upsert 3 [] [] [7]).2.2.2 (by decide)⟩

/-- C9.  In both adapters, a `sync_writes` option that is present but not a
boolean does not make `Open` fail: the failed type assertion silently yields
false, so opening behaves exactly as with an explicit `sync_writes = false`,
and the open succeeds. -/
theorem claim9_malformed_sync_opt :
    ∀ (p : List String) (v : OptV) (fs : FS), isBoolOpt v = false →
      levelOpen [("path", OptV.str p), ("sync_writes", v)] fs
        = levelOpen [("path", OptV.str p), ("sync_writes", OptV.boolean false)] fs
      ∧ badgerOpen [("path", OptV.str p), ("sync_writes", v)] fs
        = badgerOpen [("path", OptV.str p), ("sync_writes", OptV.boolean false)] fs
      ∧ isOkE (levelOpen [("path", OptV.str p), ("sync_writes", v)] fs) = true
      ∧ isOkE (badgerOpen [("path", OptV.str p), ("sync_writes", v)] fs) = true := by
  intro p v fs hv
  have hb : optBool [("path", OptV.str p), ("sync_writes", v)] "sync_writes" = none := by
    cases v with
    | str s => simp [optBool, List.lookup]
    | boolean b => simp [isBoolOpt] at hv
    | num n => simp [optBool, List.lookup]
  have hb2 : optBool [("path", OptV.str p), ("sync_writes", OptV.boolean false)]
      "sync_writes" = some false := by
    simp [optBool, List.lookup]
  have hp : ∀ w, optStr [("path", OptV.str p), ("sync_writes", w)] "path" = some p := by
    intro w
    simp [optStr, List.lookup]
  refine ⟨?_, ?_, ?_, ?_⟩ <;>
    simp [levelOpen, badgerOpen, hb, hb2, hp, isOkE]

/-- C9, witness at a numeric `sync_writes` value. -/
theorem claim9_malformed_sync_opt_witness :
    levelOpen [("path", OptV.str ["d", "b"]), ("sync_writes", OptV.num 3)] []
      = levelOpen [("path", OptV.str ["d", "b"]), ("sync_writes", OptV.boolean false)] []
    ∧ badgerOpen [("path", OptV.str ["d", "b"]), ("sync_writes", OptV.num 3)] []
      = badgerOpen [("path", OptV.str ["d", "b"]), ("sync_writes", OptV.boolean false)] []
    ∧ isOkE (levelOpen [("path", OptV.str ["d", "b"]), ("sync_writes", OptV.num 3)] []) = true
    ∧ isOkE (badgerOpen [("path", OptV.str ["d", "b"]), ("sync_writes", OptV.num 3)] []) = true :=
  claim9_malformed_sync_opt ["d", "b"] (OptV.num 3) [] rfl

/-- C10.  In both adapters, when the configured path's parent directory does
not exist, `Open` creates it — with every missing ancestor, each with
permission bits 0777 — before opening the engine, and the open succeeds
rather than failing with an I/O error. -/
theorem claim10_mkdir_parent :
    ∀ (opts : OptMap) (fs : FS) (path : List String),
      optStr opts "path" = some path → path.dropLast ≠ [] →
      dirExists fs path.dropLast = false →
      (∃ r, levelOpen opts fs = Except.ok r ∧ ((path.dropLast, modePerm) ∈ r.fs)
        ∧ (dirAncestors path.dropLast).all (fun a => dirExists r.fs a) = true)
      ∧ (∃ r, badgerOpen opts fs = Except.ok r ∧ ((path.dropLast, modePerm) ∈ r.fs)
        ∧ (dirAncestors path.dropLast).all (fun a => dirExists r.fs a) = true) := by
  intro opts fs path hp hd hne
  have hprep : prepareDir fs path = mkdirAll fs path.dropLast modePerm := by
    unfold prepareDir
    simp [hne]
  have hmem : (path.dropLast, modePerm) ∈ mkdirAll fs path.dropLast modePerm :=
    mem_mkdirAll_self fs path.dropLast modePerm hd hne
  have hall : (dirAncestors path.dropLast).all
      (fun a => dirExists (mkdirAll fs path.dropLast modePerm) a) = true := by
    rw [List.all_eq_true]
    intro a ha
    exact dirExists_mkdirAll fs path.dropLast modePerm a ha
  have hmem2 : (path.dropLast, modePerm) ∈ prepareDir fs path := by
    rw [hprep]; exact hmem
  have hall2 : (dirAncestors path.dropLast).all
      (fun a => dirExists (prepareDir fs path) a) = true := by
    rw [hprep]; exact hall
  constructor
  · have hlo : levelOpen opts fs = Except.ok
        { engineOpts :=
            { bloomFilterBits := 10
              errorIfMissing := false
              compression := 9
              noSync := (optBool opts "sync_writes").getD false }
          fs := prepareDir fs path
          syncWrites := (optBool opts "sync_writes").getD false } := by
      simp [levelOpen, hp]
    exact ⟨_, hlo, hmem2, hall2⟩
  · have hbo : badgerOpen opts fs = Except.ok
        { engineOpts := badgerDefaultOptions path
          fs := prepareDir fs path } := by
      simp [badgerOpen, hp]
    exact ⟨_, hbo, hmem2, hall2⟩

/-- C10, witness: opening path a/b/c over an empty file system creates the
parent a/b and its ancestor a with permission 0777. -/
theorem claim10_mkdir_parent_witness :
    (∃ r, levelOpen [("path", OptV.str ["a", "b", "c"])] [] = Except.ok r
      ∧ ((["a", "b"], modePerm) ∈ r.fs)
      ∧ (dirAncestors ["a", "b"]).all (fun a => dirExists r.fs a) = true)
    ∧ (∃ r, badgerOpen [("path", OptV.str ["a", "b", "c"])] [] = Except.ok r
      ∧ ((["a", "b"], modePerm) ∈ r.fs)
      ∧ (dirAncestors ["a", "b"]).all (fun a => dirExists r.fs a) = true) :=
  claim10_mkdir_parent [("path", OptV.str ["a", "b", "c"])] [] ["a", "b", "c"]
    rfl (by decide) rfl

/-- C6.  The leveldb adapter never surfaces an expired payload: `Get` of a
key whose stored expiry has passed fails with the key-not-found error;
every record the scan loop hands to the callback comes from an unexpired
candidate (so the callback is never invoked on an expired record and never
sees expired payload bytes); and an expired candidate is skipped with the
trace and outcome continuing exactly as the scan of the remaining
candidates — iteration is not terminated. -/
theorem claim6_expired_hidden :
    (∀ (st : Store) (now : Nat) (k : Bytes) (p : Payload),
      List.lookup k st = some p → isExpired p.expires now = true →
      levelGet st now k = Except.error KVErr.keyNotFound)
    ∧ (∀ (off? : Option Bytes) (incl : Bool) (now : Nat)
        (f : Bytes → Bytes → Option KVErr) (cands : List (Bytes × Payload)) (k v : Bytes),
      Ev.emit k v ∈ (levelScanLoop off? incl now f cands).1 →
      ∃ p, (k, p) ∈ cands ∧ p.value = v ∧ isExpired p.expires now = false)
    ∧ (∀ (off? : Option Bytes) (incl : Bool) (now : Nat)
        (f : Bytes → Bytes → Option KVErr) (k : Bytes) (p : Payload)
        (rest : List (Bytes × Payload)),
      offsetSkip off? incl k = false → isExpired p.expires now = true →
      levelScanLoop off? incl now f ((k, p) :: rest)
        = (Ev.skipExp k :: (levelScanLoop off? incl now f rest).1,
           (levelScanLoop off? incl now f rest).2)) := by
  refine ⟨?_, ?_, ?_⟩
  · intro st now k p h hexp
    simp [levelGet, h, hexp]
  · intro off? incl now f cands
    induction cands with
    | nil =>
      intro k v h
      simp [levelScanLoop] at h
    | cons c rest ih =>
      obtain ⟨ck, cp⟩ := c
      intro k v h
      simp only [levelScanLoop] at h
      by_cases hoff : offsetSkip off? incl ck = true
      · rw [if_pos hoff] at h
        simp only [List.mem_cons] at h
        rcases h with h | h
        · cases h
        · obtain ⟨p, hp, hv, he⟩ := ih k v h
          exact ⟨p, List.mem_cons_of_mem _ hp, hv, he⟩
      · rw [if_neg hoff] at h
        by_cases hexp : isExpired cp.expires now = true
        · rw [if_pos hexp] at h
          simp only [List.mem_cons] at h
          rcases h with h | h
          · cases h
          · obtain ⟨p, hp, hv, he⟩ := ih k v h
            exact ⟨p, List.mem_cons_of_mem _ hp, hv, he⟩
        · rw [if_neg hexp] at h
          simp only [Bool.not_eq_true] at hexp
          cases hf : f ck cp.value with
          | none =>
            rw [hf] at h
            simp only [List.mem_cons] at h
            rcases h with h | h
            · injection h with h1 h2
              subst h1
              subst h2
              exact ⟨cp, List.mem_cons_self _ _, rfl, hexp⟩
            · obtain ⟨p, hp, hv, he⟩ := ih k v h
              exact ⟨p, List.mem_cons_of_mem _ hp, hv, he⟩
          | some e =>
            rw [hf] at h
            by_cases hd : e = KVErr.scanDone
            · simp only [if_pos hd, List.mem_cons, List.not_mem_nil, or_false] at h
              injection h with h1 h2
              subst h1
              subst h2
              exact ⟨cp, List.mem_cons_self _ _, rfl, hexp⟩
            · simp only [if_neg hd, List.mem_cons, List.not_mem_nil, or_false] at h
              injection h with h1 h2
              subst h1
              subst h2
              exact ⟨cp, List.mem_cons_self _ _, rfl, hexp⟩
  · intro off? incl now f k p rest hoff hexp
    simp [levelScanLoop, hoff, hexp]

/-- C6, witness: a concrete expired record is reported as key-not-found by
`Get`. -/
theorem claim6_expired_hidden_witness :
    levelGet [([3], ⟨some 2, [9]⟩)] 7 [3] = Except.error KVErr.keyNotFound :=
  claim6_expired_hidden.1 [([3], ⟨some 2, [9]⟩)] 7 [3] ⟨some 2, [9]⟩ rfl rfl

/-- C5.  Offset boundary rule.  First conjunct (leveldb, store sorted in the
engine's strictly ascending key order) and second conjunct (badgerdb, thanks
to its `checked` marker): in a scan with `Offset` set, an offset-boundary
skip can occur only as the very first event of the trace — every later
record is never suppressed by the boundary rule.  Third and fourth
conjuncts: when the first candidate record's key equals `Offset` exactly
(and, for leveldb, its payload is unexpired), that record is handed to the
callback iff `IncludeOffset` is true, otherwise the first event is the
boundary skip.  Final conjuncts: over keys a, b, c, a forward scan with
`Offset` b emits only c when `IncludeOffset` is false and b, c when it is
true, in both adapters. -/
theorem claim5_offset_boundary :
    (∀ (st : Store) (now : Nat) (pfx? : Option Bytes) (off : Bytes)
        (rev incl : Bool) (f : Bytes → Bytes → Option KVErr),
      List.Pairwise (fun a b => byteLt a.1 b.1 = true) st →
      (((levelScan st now
          { pfx := pfx?, offset := some off, reverseScan := rev,
            includeOffset := incl, scanner := some f }).1.drop 1).all
        (fun e => !e.isSkipOff)) = true)
    ∧ (∀ (st : BStore) (now : Nat) (pfx? : Option Bytes) (off : Bytes)
        (rev incl : Bool) (f : Bytes → Bytes → Option KVErr),
      (((badgerScan st now
          { pfx := pfx?, offset := some off, reverseScan := rev,
            includeOffset := incl, scanner := some f }).1.drop 1).all
        (fun e => !e.isSkipOff)) = true)
    ∧ (∀ (off : Bytes) (incl : Bool) (now : Nat) (f : Bytes → Bytes → Option KVErr)
        (k : Bytes) (p : Payload) (rest : List (Bytes × Payload)),
      k = off → isExpired p.expires now = false →
      ((incl = false → (levelScanLoop (some off) incl now f ((k, p) :: rest)).1.head?
          = some (Ev.skipOff k))
       ∧ (incl = true → (levelScanLoop (some off) incl now f ((k, p) :: rest)).1.head?
          = some (Ev.emit k p.value))))
    ∧ (∀ (off : Bytes) (incl : Bool) (f : Bytes → Bytes → Option KVErr)
        (k v : Bytes) (rest : List (Bytes × Bytes)),
      k = off →
      ((incl = false → (badgerScanLoop (some off) incl f false ((k, v) :: rest)).1.head?
          = some (Ev.skipOff k))
       ∧ (incl = true → (badgerScanLoop (some off) incl f false ((k, v) :: rest)).1.head?
          = some (Ev.emit k v))))
    ∧ emittedKeys (levelScan [([97], ⟨none, [10]⟩), ([98], ⟨none, [11]⟩), ([99], ⟨none, [12]⟩)]
        0 { pfx := none, offset := some [98], reverseScan := false, includeOffset := false,
            scanner := some (fun _ _ => none) }).1 = [[99]]
    ∧ emittedKeys (levelScan [([97], ⟨none, [10]⟩), ([98], ⟨none, [11]⟩), ([99], ⟨none, [12]⟩)]
        0 { pfx := none, offset := some [98], reverseScan := false, includeOffset := true,
            scanner := some (fun _ _ => none) }).1 = [[98], [99]]
    ∧ emittedKeys (badgerScan [([97], ⟨[10], 0⟩), ([98], ⟨[11], 0⟩), ([99], ⟨[12], 0⟩)]
        0 { pfx := none, offset := some [98], reverseScan := false, includeOffset := false,
            scanner := some (fun _ _ => none) }).1 = [[99]]
    ∧ emittedKeys (badgerScan [([97], ⟨[10], 0⟩), ([98], ⟨[11], 0⟩), ([99], ⟨[12], 0⟩)]
        0 { pfx := none, offset := some [98], reverseScan := false, includeOffset := true,
            scanner := some (fun _ _ => none) }).1 = [[98], [99]] := by
  refine ⟨?_, ?_, ?_, ?_, by decide, by decide, by decide, by decide⟩
  · intro st now pfx? off rev incl f hs
    simp only [levelScan]
    cases hc : levelSeekCandidates st pfx? (some off) rev with
    | none => simp
    | some cands =>
      cases cands with
      | nil => simp [levelScanLoop]
      | cons c rest =>
        obtain ⟨ev, t, htr, ht⟩ := levelLoop_trace_cons (some off) incl now f c rest
        simp only [htr, List.drop_succ_cons, List.drop_zero]
        cases ht with
        | inl h2 =>
          rw [h2]
          exact levelLoop_no_skipOff off incl now f rest
            (level_cands_tail_ne st pfx? off rev hs c rest hc)
        | inr h2 =>
          rw [h2]
          rfl
  · intro st now pfx? off rev incl f
    simp only [badgerScan]
    cases hc : badgerCandidates st now
        { pfx := pfx?, offset := some off,
          reverseScan := rev, includeOffset := incl, scanner := some f } with
    | nil => simp [badgerScanLoop]
    | cons c rest =>
      obtain ⟨ev, t, htr, ht⟩ := badgerLoop_trace_cons (some off) incl f c rest
      simp only [htr, List.drop_succ_cons, List.drop_zero]
      cases ht with
      | inl h2 =>
        rw [h2]
        exact badgerLoop_checked_no_skipOff (some off) incl f rest
      | inr h2 =>
        rw [h2]
        rfl
  · intro off incl now f k p rest hk hexp
    subst hk
    constructor
    · intro hincl
      subst hincl
      simp [levelScanLoop, offsetSkip]
    · intro hincl
      subst hincl
      have hoff : offsetSkip (some k) true k = false := by
        simp [offsetSkip]
      simp only [levelScanLoop, hoff, Bool.false_eq_true, if_false, hexp]
      cases hf : f k p.value with
      | none => simp
      | some e =>
        by_cases hd : e = KVErr.scanDone
        · simp [if_pos hd]
        · simp [if_neg hd]
  · intro off incl f k v rest hk
    subst hk
    constructor
    · intro hincl
      subst hincl
      simp [badgerScanLoop, offsetSkip]
    · intro hincl
      subst hincl
      have hoff : offsetSkip (some k) true k = false := by
        simp [offsetSkip]
      simp only [badgerScanLoop, hoff, Bool.not_false, Bool.true_and, Bool.and_false,
        Bool.false_eq_true, if_false]
      cases hf : f k v with
      | none => simp
      | some e =>
        by_cases hd : e = KVErr.scanDone
        · simp [if_pos hd]
        · simp [if_neg hd]

/-- C5, witness: the sortedness hypothesis discharged at the concrete a, b, c
store, applying the leveldb conjunct. -/
theorem claim5_offset_boundary_witness :
    (((levelScan [([97], ⟨none, [10]⟩), ([98], ⟨none, [11]⟩), ([99], ⟨none, [12]⟩)] 0
        { pfx := none, offset := some [98], reverseScan := true, includeOffset := false,
          scanner := some (fun _ _ => none) }).1.drop 1).all
      (fun e => !e.isSkipOff)) = true :=
  claim5_offset_boundary.1 [([97], ⟨none, [10]⟩), ([98], ⟨none, [11]⟩), ([99], ⟨none, [12]⟩)]
    0 none [98] true false (fun _ _ => none) (by decide)

end Goukv
